import Mathlib

/-!
Verification of `sunpy/util/multimethod.py` — the runtime multiple-dispatch
engine (`MultiMethod`).

The embedding is parameterised over an abstract universe of runtime types
`Ty` with a boolean subtype test `issub` (modelling Python `issubclass`),
runtime values `V` with `typeOf` (modelling `type(x)`), and opaque
implementations `Impl` (registered callables are never applied in the model;
an invocation's observable result is the selected implementation together
with the argument list it is applied to, which determines the Python result).

Python exceptions are modelled by an explicit error type: `TypeError`
(carrying the optional discriminant-tuple payload of its message) and
`ValueError`.  Machinery corresponding line-by-line to the source:

* `issubAll`          — `all(issubclass(a, b) for a, b in zip(xs, ys))`
* `resolve`/`scanRev` — the `for signature, fun in reversed(self.methods)` loop
* `MultiMethod.add`   — `MultiMethod.add` (including the leaked loop variable
                        `signature` used in the warning, modelled by `lastSig`)
* `MultiMethod.add_dec` — `MultiMethod.add_dec` (clears the cache, then adds)
* `MultiMethod.call`  — `MultiMethod.__call__`
* `MultiMethod.super` — `MultiMethod.super`
-/

namespace Multimethod

/-- Policy constant `SILENT = 0` of the source. -/
def SILENT : Nat := 0

/-- Policy constant `WARN = 1` of the source. -/
def WARN : Nat := 1

/-- Policy constant `FAIL = 2` of the source. -/
def FAIL : Nat := 2

/-- A call-time argument: either a plain value, or a delegation marker
`super(thisclass, v)` recording a class context and the wrapped value
(`__thisclass__` and `__self__`). -/
inductive Arg (Ty V : Type) where
  | plain (v : V)
  | sup (thisclass : Ty) (v : V)
  deriving DecidableEq, Repr

/-- A Python exception as observable from the dispatch engine:
`typeError pl` models `TypeError` where `pl` is the discriminant type tuple
included in the message (`TypeError('%r' % types)`) or `none` for a bare
`raise TypeError`; `valueError` models `ValueError`. -/
inductive PyErr (Ty : Type) where
  | typeError (payload : Option (List Ty))
  | valueError
  deriving DecidableEq, Repr

/-- The engine state: the extractor `get`, the ordered registration list
`methods` (append-only), and the memoisation `cache` (an association list
modelling the dict; insertion prepends, lookup takes the newest binding). -/
structure MultiMethod (Ty V Impl : Type) where
  get : List (Arg Ty V) → List (String × Arg Ty V) → List (Arg Ty V)
  methods : List (List Ty × Impl)
  cache : List (List Ty × Impl)

variable {Ty V Impl : Type}

/-- Positional match test `all(issubclass(a, b) for a, b in zip(types, signature))`:
pointwise subtype test over the zip of the two tuples (truncating to the
shorter; vacuously true when either is empty). -/
def issubAll (issub : Ty → Ty → Bool) (types sig : List Ty) : Bool :=
  (List.zip types sig).all fun p => issub p.1 p.2

/-- The body of `for signature, fun in reversed(self.methods): ...` —
scan a (already reversed) registration list, returning the first entry whose
signature matches the discriminant types. -/
def scanRev (issub : Ty → Ty → Bool) (types : List Ty) :
    List (List Ty × Impl) → Option Impl
  | [] => none
  | (sig, f) :: rest =>
    if issubAll issub types sig then some f else scanRev issub types rest

/-- Resolution: scan `methods` in reverse insertion order, returning the
implementation of the first match, as in `__call__` and `super`. -/
def resolve (issub : Ty → Ty → Bool) (methods : List (List Ty × Impl))
    (types : List Ty) : Option Impl :=
  scanRev issub types methods.reverse

/-- Cache lookup `self.cache.get(types, None)` on the association-list model of the dict. -/
def lookupCache [DecidableEq Ty] :
    List (List Ty × Impl) → List Ty → Option Impl
  | [], _ => none
  | (k, f) :: rest, types => if k = types then some f else lookupCache rest types

/-- Runtime type `type(x)` as used in `__call__`: a delegation marker is itself an object
of the builtin class `super` (written `superTy`), a plain value has its own
runtime type. -/
def argTypeDirect (typeOf : V → Ty) (superTy : Ty) : Arg Ty V → Ty
  | .plain v => typeOf v
  | .sup _ _ => superTy

/-- Discriminant type `x.__thisclass__.__mro__[1] if isinstance(x, super) else type(x)` as used
in `super`: a marker contributes the immediate supertype (`superOf`) of its
recorded class context, a plain value its own runtime type. -/
def argTypeSuper (typeOf : V → Ty) (superOf : Ty → Ty) : Arg Ty V → Ty
  | .plain v => typeOf v
  | .sup c _ => superOf c

/-- Forwarded value `x.__self__ if isinstance(x, super) else x`: unwrap a delegation marker. -/
def unwrapArg : Arg Ty V → Arg Ty V
  | .sup _ v => .plain v
  | .plain v => .plain v

/-- The signature of the last registration: the value the leaked loop
variable `signature` holds after `for signature, _ in self.methods` runs to
completion (the loop never breaks).  `[]` is returned for an empty registry,
where the Python loop body never binds the variable (and the warning branch
is unreachable). -/
def lastSig : List (List Ty × Impl) → List Ty
  | [] => []
  | [m] => m.1
  | _ :: m :: rest => lastSig (m :: rest)

/-- Registration `MultiMethod.add(fun, types, override)`.  Returns the post-call engine
state paired with the outcome: `.ok w` for a successful registration where
`w` is the emitted warning, if any, as the pair (new signature, signature
named as overridden); `.error e` for a raised exception (state unchanged,
since the source raises before appending). -/
def MultiMethod.add (issub : Ty → Ty → Bool) (mm : MultiMethod Ty V Impl)
    (f : Impl) (types : List Ty) (override : Nat) :
    MultiMethod Ty V Impl × Except (PyErr Ty) (Option (List Ty × List Ty)) :=
  let overriden :=
    (override != 0) && mm.methods.any fun m => issubAll issub types m.1
  if overriden && (override == FAIL) then
    (mm, .error (.typeError none))
  else if overriden && (override == WARN) then
    ({ mm with methods := mm.methods ++ [(types, f)] },
     .ok (some (types, lastSig mm.methods)))
  else if overriden then
    (mm, .error .valueError)
  else
    ({ mm with methods := mm.methods ++ [(types, f)] }, .ok none)

/-- Decorating registration `MultiMethod.add_dec(*types, override=...)` applied to `fun`: clears the
whole cache (`self.cache = {}` happens when the decorator is requested), then
registers through `add`. -/
def MultiMethod.add_dec (issub : Ty → Ty → Bool) (mm : MultiMethod Ty V Impl)
    (f : Impl) (types : List Ty) (override : Nat) :
    MultiMethod Ty V Impl × Except (PyErr Ty) (Option (List Ty × List Ty)) :=
  MultiMethod.add issub { mm with cache := [] } f types override

/-- Invocation `MultiMethod.__call__(*args, **kwargs)`: extract the discriminant values,
take their runtime types, try the cache, else scan the registry in reverse
insertion order, memoise and dispatch; raise `TypeError('%r' % types)` when
nothing matches.  The `.ok` result is the selected implementation together
with the (unchanged) positional and keyword arguments it is applied to, and
the post-call state. -/
def MultiMethod.call [DecidableEq Ty] (issub : Ty → Ty → Bool)
    (typeOf : V → Ty) (superTy : Ty) (mm : MultiMethod Ty V Impl)
    (args : List (Arg Ty V)) (kwargs : List (String × Arg Ty V)) :
    Except (PyErr Ty)
      ((Impl × List (Arg Ty V) × List (String × Arg Ty V)) ×
        MultiMethod Ty V Impl) :=
  let objs := mm.get args kwargs
  let types := objs.map (argTypeDirect typeOf superTy)
  match lookupCache mm.cache types with
  | some f => .ok ((f, args, kwargs), mm)
  | none =>
    match resolve issub mm.methods types with
    | some f =>
      .ok ((f, args, kwargs), { mm with cache := (types, f) :: mm.cache })
    | none => .error (.typeError (some types))

/-- Cooperative invocation `MultiMethod.super(*args, **kwargs)`: like `__call__`, but a delegation
marker among the extracted discriminants contributes the immediate supertype
of its recorded class context, and the forwarded positional and keyword
arguments have every marker replaced by its wrapped value; raises a bare
`TypeError` (no payload) when nothing matches. -/
def MultiMethod.super [DecidableEq Ty] (issub : Ty → Ty → Bool)
    (typeOf : V → Ty) (superOf : Ty → Ty) (mm : MultiMethod Ty V Impl)
    (args : List (Arg Ty V)) (kwargs : List (String × Arg Ty V)) :
    Except (PyErr Ty)
      ((Impl × List (Arg Ty V) × List (String × Arg Ty V)) ×
        MultiMethod Ty V Impl) :=
  let objs := mm.get args kwargs
  let types := objs.map (argTypeSuper typeOf superOf)
  let nargs := args.map unwrapArg
  let kwargs2 := kwargs.map fun p => (p.1, unwrapArg p.2)
  match lookupCache mm.cache types with
  | some f => .ok ((f, nargs, kwargs2), mm)
  | none =>
    match resolve issub mm.methods types with
    | some f =>
      .ok ((f, nargs, kwargs2), { mm with cache := (types, f) :: mm.cache })
    | none => .error (.typeError none)

/-- Every cache entry agrees with resolution against the current registry:
the invariant that makes the cache a pure memoisation.  It holds for the
empty cache and is preserved by invocations; raw `add` can break it (the
documented stale-cache sharp edge). -/
def cacheConsistent [DecidableEq Ty] (issub : Ty → Ty → Bool)
    (mm : MultiMethod Ty V Impl) : Prop :=
  ∀ types f, lookupCache mm.cache types = some f →
    resolve issub mm.methods types = some f

/-! ### A concrete type universe for witnesses

A small class hierarchy mirroring the examples of the specification:
`dog < animal < obj`, `int_ < number < obj`, `str_ < obj`, and `sup_`
standing for the builtin class `super`. -/

/-- Concrete runtime types for witnesses. -/
inductive PTy where
  | obj | animal | dog | number | int_ | str_ | sup_
  deriving DecidableEq, Repr

/-- Subtype test `issubclass` on the concrete hierarchy (reflexive, `obj` on top,
`dog ≤ animal`, `int_ ≤ number`). -/
def psub (a b : PTy) : Bool :=
  a == b || b == .obj || (a == .dog && b == .animal) ||
    (a == .int_ && b == .number)

/-- Immediate superclass `C.__mro__[1]` in the concrete hierarchy. -/
def psuperOf : PTy → PTy
  | .dog => .animal
  | .animal => .obj
  | .int_ => .number
  | .number => .obj
  | .str_ => .obj
  | .sup_ => .obj
  | .obj => .obj

/-- A concrete runtime value: a runtime type plus an identity. -/
structure PVal where
  ty : PTy
  ident : Nat
  deriving DecidableEq, Repr

/-- Runtime type `type(v)` for concrete values. -/
def PVal.typeOf (v : PVal) : PTy := v.ty

/-- The identity extractor: the discriminant values are the positional
arguments themselves (the common `lambda *a: a` style `get`). -/
def idGet : List (Arg PTy PVal) → List (String × Arg PTy PVal) →
    List (Arg PTy PVal) :=
  fun args _ => args

/-- A concrete engine with identity extractor, given registrations and
cache; implementations are labelled by naturals. -/
def pmm (methods cache : List (List PTy × Nat)) : MultiMethod PTy PVal Nat :=
  { get := idGet, methods := methods, cache := cache }

/-! ### Helper lemmas about resolution -/

/-- Appending a matching registration makes it the resolution result:
the reverse-order scan meets it first. -/
theorem resolve_append_match (issub : Ty → Ty → Bool) (l : List (List Ty × Impl))
    (types s : List Ty) (f : Impl) (h : issubAll issub types s = true) :
    resolve issub (l ++ [(s, f)]) types = some f := by
  simp [resolve, List.reverse_append, scanRev, h]

/-- Appending a non-matching registration leaves resolution unchanged. -/
theorem resolve_append_nomatch (issub : Ty → Ty → Bool)
    (l : List (List Ty × Impl)) (types s : List Ty) (f : Impl)
    (h : issubAll issub types s = false) :
    resolve issub (l ++ [(s, f)]) types = resolve issub l types := by
  simp [resolve, List.reverse_append, scanRev, h]

/-- Unfolding equation for the scan at a cons cell. -/
theorem scanRev_cons (issub : Ty → Ty → Bool) (types sig0 : List Ty)
    (f0 : Impl) (tl : List (List Ty × Impl)) :
    scanRev issub types ((sig0, f0) :: tl) =
      if issubAll issub types sig0 then some f0 else scanRev issub types tl :=
  rfl

/-- Characterisation of the scan over an already-reversed list: it returns
`some f` exactly when the list splits as `a ++ (sig, f) :: b` with `sig`
matching and everything before it failing. -/
theorem scanRev_eq_some_iff (issub : Ty → Ty → Bool) (types : List Ty)
    (r : List (List Ty × Impl)) (f : Impl) :
    scanRev issub types r = some f ↔
      ∃ a sig b, r = a ++ (sig, f) :: b ∧ issubAll issub types sig = true ∧
        ∀ q ∈ a, issubAll issub types q.1 = false := by
  induction r with
  | nil => simp [scanRev]
  | cons hd tl ih =>
    obtain ⟨sig0, f0⟩ := hd
    by_cases h : issubAll issub types sig0 = true
    · rw [scanRev_cons, if_pos h]
      constructor
      · intro hf
        rcases Option.some.inj hf with rfl
        exact ⟨[], sig0, tl, rfl, h, by simp⟩
      · rintro ⟨a, sig, b, hsplit, hm, hall⟩
        cases a with
        | nil =>
          rw [List.nil_append] at hsplit
          injection hsplit with h1 h2
          exact congrArg some (congrArg Prod.snd h1)
        | cons q a' =>
          rw [List.cons_append] at hsplit
          injection hsplit with h1 h2
          have hq := hall q (List.mem_cons_self q a')
          rw [← h1] at hq
          have hq2 : issubAll issub types sig0 = false := hq
          rw [hq2] at h
          cases h
    · rw [scanRev_cons, if_neg h, ih]
      rw [Bool.not_eq_true] at h
      constructor
      · rintro ⟨a, sig, b, hsplit, hm, hall⟩
        refine ⟨(sig0, f0) :: a, sig, b, by rw [hsplit, List.cons_append],
          hm, ?_⟩
        intro q hq
        rcases List.mem_cons.mp hq with hq | hq
        · rw [hq]
          exact h
        · exact hall q hq
      · rintro ⟨a, sig, b, hsplit, hm, hall⟩
        cases a with
        | nil =>
          rw [List.nil_append] at hsplit
          injection hsplit with h1 h2
          have hs : sig0 = sig := congrArg Prod.fst h1
          rw [hs, hm] at h
          cases h
        | cons q a' =>
          rw [List.cons_append] at hsplit
          injection hsplit with h1 h2
          exact ⟨a', sig, b, h2, hm, fun p hp =>
            hall p (List.mem_cons_of_mem q hp)⟩

/-- Characterisation of resolution in insertion order: `resolve` returns
`some f` exactly when the registry splits as `l1 ++ (sig, f) :: l2` with
`sig` matching and every later registration failing. -/
theorem resolve_eq_some_iff (issub : Ty → Ty → Bool)
    (ms : List (List Ty × Impl)) (types : List Ty) (f : Impl) :
    resolve issub ms types = some f ↔
      ∃ l1 sig l2, ms = l1 ++ (sig, f) :: l2 ∧
        issubAll issub types sig = true ∧
        ∀ q ∈ l2, issubAll issub types q.1 = false := by
  rw [resolve, scanRev_eq_some_iff]
  constructor
  · rintro ⟨a, sig, b, hsplit, hm, hall⟩
    refine ⟨b.reverse, sig, a.reverse, ?_, hm, fun q hq => hall q (by simpa using hq)⟩
    have h2 := congrArg List.reverse hsplit
    simpa [List.reverse_append] using h2
  · rintro ⟨l1, sig, l2, hsplit, hm, hall⟩
    refine ⟨l2.reverse, sig, l1.reverse, ?_, hm, fun q hq => hall q (by simpa using hq)⟩
    rw [hsplit]
    simp [List.reverse_append]

/-- Zipping only consumes the common prefix of the two lists. -/
theorem zip_take_take {α β : Type} (xs : List α) (ys : List β) :
    xs.zip ys = (xs.take ys.length).zip (ys.take xs.length) := by
  induction xs generalizing ys with
  | nil => simp
  | cons x xs ih =>
    cases ys with
    | nil => simp
    | cons y ys => simp [List.zip_cons_cons, ih ys]

/-! ### Claim theorems -/

/-- C1: resolution scans the registrations in reverse insertion order,
testing pointwise subtype compatibility, and returns the first match in that
order; in particular a matching registration that is most recent wins
regardless of specificity (first conjunct), and in general the result is
exactly the last registration in insertion order that matches with no later
registration matching (second conjunct). -/
theorem resolution_recency_wins (issub : Ty → Ty → Bool)
    (ms l : List (List Ty × Impl)) (types s2 : List Ty) (f2 f : Impl)
    (h2 : issubAll issub types s2 = true) :
    resolve issub (l ++ [(s2, f2)]) types = some f2 ∧
    (resolve issub ms types = some f ↔
      ∃ l1 sig l2, ms = l1 ++ (sig, f) :: l2 ∧
        issubAll issub types sig = true ∧
        ∀ q ∈ l2, issubAll issub types q.1 = false) :=
  ⟨resolve_append_match issub l types s2 f2 h2,
   resolve_eq_some_iff issub ms types f⟩

/-- C1 witness: with registrations `(animal,)` then `(dog,)` and discriminant
`(dog,)`, resolution returns the later `(dog,)` implementation, and the
insertion-order characterisation holds at this concrete registry. -/
theorem resolution_recency_wins_witness :
    resolve psub ([([PTy.animal], 0)] ++ [([PTy.dog], 1)]) [PTy.dog] = some 1 ∧
    (resolve psub [([PTy.animal], 0), ([PTy.dog], 1)] [PTy.dog] = some 1 ↔
      ∃ l1 sig l2,
        [([PTy.animal], 0), ([PTy.dog], 1)] = l1 ++ (sig, (1 : Nat)) :: l2 ∧
        issubAll psub [PTy.dog] sig = true ∧
        ∀ q ∈ l2, issubAll psub [PTy.dog] q.1 = false) :=
  resolution_recency_wins psub [([PTy.animal], 0), ([PTy.dog], 1)]
    [([PTy.animal], 0)] [PTy.dog] [PTy.dog] 1 1 (by decide)

/-- C10: matching compares only the zipped common prefix of discriminant
tuple and signature (first conjunct); an empty signature matches every
discriminant tuple (second and third conjuncts: vacuous match, and a
last-registered empty signature resolves for any tuple); and registration
never rejects an arity mismatch — conflict detection also runs on the zipped
prefix, as the concrete `Fail`-policy registration of the shorter signature
`(dog,)` against the longer existing `(animal, dog)` shows (it is refused as
a conflict, because the zipped prefix matches), while a one-element
discriminant resolves against that two-element signature (last conjunct). -/
theorem zip_truncation_semantics (issub : Ty → Ty → Bool)
    (types sig : List Ty) (l : List (List Ty × Impl)) (f : Impl) :
    issubAll issub types sig =
      issubAll issub (types.take sig.length) (sig.take types.length) ∧
    issubAll issub types [] = true ∧
    resolve issub (l ++ [([], f)]) types = some f ∧
    (MultiMethod.add psub (pmm [([PTy.animal, PTy.dog], 5)] []) 7
        [PTy.dog] FAIL).2 = .error (.typeError none) ∧
    resolve psub [([PTy.animal, PTy.dog], 3)] [PTy.dog] = some 3 := by
  refine ⟨?_, by simp [issubAll], ?_, by rfl, by rfl⟩
  · unfold issubAll
    rw [zip_take_take]
  · exact resolve_append_match issub l types [] f (by simp [issubAll])

/-- C4: conflict detection runs exactly when the policy is truthy
(non-Silent): under `SILENT` registration appends unconditionally (first
conjunct); under a truthy policy the registration is a plain successful
append if and only if no existing signature has the new signature pointwise
at-or-below it (second conjunct); two identical signatures registered under
`SILENT` never raise or warn, and both are retained (third and fourth
conjuncts); and the check's direction is new-below-existing, not the
reverse: adding `(animal,)` over existing `(dog,)` under `FAIL` succeeds,
while adding `(dog,)` over existing `(animal,)` under `FAIL` is refused
(last two conjuncts). -/
theorem conflict_detection_policy (issub : Ty → Ty → Bool)
    (mm : MultiMethod Ty V Impl) (f g : Impl) (types : List Ty) (o : Nat)
    (ho : o ≠ 0) :
    MultiMethod.add issub mm f types SILENT =
      ({ mm with methods := mm.methods ++ [(types, f)] }, Except.ok none) ∧
    ((MultiMethod.add issub mm f types o).2 = .ok none ↔
      (mm.methods.any fun m => issubAll issub types m.1) = false) ∧
    (MultiMethod.add issub
      (MultiMethod.add issub mm f types SILENT).1 g types SILENT).2 =
        .ok none ∧
    (MultiMethod.add issub
      (MultiMethod.add issub mm f types SILENT).1 g types SILENT).1.methods =
        mm.methods ++ [(types, f), (types, g)] ∧
    (MultiMethod.add psub (pmm [([PTy.dog], 0)] []) 1 [PTy.animal] FAIL).2 =
      .ok none ∧
    (MultiMethod.add psub (pmm [([PTy.animal], 0)] []) 1 [PTy.dog] FAIL).2 =
      .error (.typeError none) := by
  have hob : (o != 0) = true := by simpa using ho
  refine ⟨rfl, ?_, rfl, by simp [MultiMethod.add, SILENT, WARN, FAIL], by rfl, by rfl⟩
  cases hA : mm.methods.any fun m => issubAll issub types m.1 with
  | false => simp [MultiMethod.add, hob, hA]
  | true =>
    by_cases h2 : (o == FAIL) = true
    · simp [MultiMethod.add, hob, hA, h2]
    · have h2f : (o == FAIL) = false := by simpa using h2
      by_cases h1 : (o == WARN) = true
      · simp [MultiMethod.add, hob, hA, h2f, h1]
      · have h1f : (o == WARN) = false := by simpa using h1
        simp [MultiMethod.add, hob, hA, h2f, h1f]

/-- C4 witness: concrete instance with an existing `(int_,)` registration,
a truthy invalid policy value 3, and identical silent registrations. -/
theorem conflict_detection_policy_witness :
    MultiMethod.add psub (pmm [([PTy.int_], 0)] []) 1 [PTy.int_] SILENT =
      ({ pmm [([PTy.int_], 0)] [] with
          methods := (pmm [([PTy.int_], 0)] []).methods ++ [([PTy.int_], 1)] },
        Except.ok none) ∧
    ((MultiMethod.add psub (pmm [([PTy.int_], 0)] []) 1 [PTy.int_] 3).2 =
        .ok none ↔
      ((pmm [([PTy.int_], 0)] []).methods.any fun m =>
        issubAll psub [PTy.int_] m.1) = false) ∧
    (MultiMethod.add psub
      (MultiMethod.add psub (pmm [([PTy.int_], 0)] []) 1 [PTy.int_] SILENT).1
        2 [PTy.int_] SILENT).2 = .ok none ∧
    (MultiMethod.add psub
      (MultiMethod.add psub (pmm [([PTy.int_], 0)] []) 1 [PTy.int_] SILENT).1
        2 [PTy.int_] SILENT).1.methods =
      (pmm [([PTy.int_], 0)] []).methods ++ [([PTy.int_], 1), ([PTy.int_], 2)] ∧
    (MultiMethod.add psub (pmm [([PTy.dog], 0)] []) 1 [PTy.animal] FAIL).2 =
      .ok none ∧
    (MultiMethod.add psub (pmm [([PTy.animal], 0)] []) 1 [PTy.dog] FAIL).2 =
      .error (.typeError none) :=
  conflict_detection_policy psub (pmm [([PTy.int_], 0)] []) 1 2 [PTy.int_] 3
    (by decide)

/-- C6: a registration under the `FAIL` policy that detects a conflict
raises `TypeError` and leaves the engine — in particular the registry —
exactly as it was: the new pair is not appended. -/
theorem fail_policy_blocks (issub : Ty → Ty → Bool)
    (mm : MultiMethod Ty V Impl) (f : Impl) (types : List Ty)
    (hc : (mm.methods.any fun m => issubAll issub types m.1) = true) :
    MultiMethod.add issub mm f types FAIL = (mm, .error (.typeError none)) := by
  simp [MultiMethod.add, SILENT, WARN, FAIL, hc]

/-- C6 witness: registering `(int_,)` twice under `FAIL`: the second call
errors and the registry retains only the first registration. -/
theorem fail_policy_blocks_witness :
    MultiMethod.add psub (pmm [([PTy.int_], 0)] []) 1 [PTy.int_] FAIL =
      (pmm [([PTy.int_], 0)] [], .error (.typeError none)) :=
  fail_policy_blocks psub (pmm [([PTy.int_], 0)] []) 1 [PTy.int_] (by decide)

/-- C7 counterexample: with existing registrations `(int_,)` then `(str_,)`,
registering `(int_,)` under `WARN` emits a warning that names `(str_,)` —
the signature of the loop variable left over from the scan — even though the
only existing signature the new one overlaps is `(int_,)`, not `(str_,)`.
So the warning does not name the existing signature it overlaps. -/
theorem warn_names_last_not_overlapped :
    (MultiMethod.add psub (pmm [([PTy.int_], 0), ([PTy.str_], 1)] []) 2
        [PTy.int_] WARN).2 = .ok (some ([PTy.int_], [PTy.str_])) ∧
    issubAll psub [PTy.int_] [PTy.str_] = false ∧
    (∀ m ∈ (pmm [([PTy.int_], 0), ([PTy.str_], 1)] []).methods,
      issubAll psub [PTy.int_] m.1 = true → m.1 = [PTy.int_]) ∧
    ([PTy.str_] : List PTy) ≠ [PTy.int_] :=
  ⟨rfl, rfl, by decide, by decide⟩

/-- C7 amended: whenever registration under the `WARN` policy detects a
conflict, the registration still succeeds with both the earlier and the new
registration retained in order, and a `TypeWarning` is emitted naming the
new signature together with the signature of the most recently registered
prior entry (the value the leaked loop variable holds), which need not be a
signature the new one overlaps. -/
theorem warn_policy_preserves_both (issub : Ty → Ty → Bool)
    (mm : MultiMethod Ty V Impl) (f : Impl) (types : List Ty)
    (hc : (mm.methods.any fun m => issubAll issub types m.1) = true) :
    MultiMethod.add issub mm f types WARN =
      ({ mm with methods := mm.methods ++ [(types, f)] },
        .ok (some (types, lastSig mm.methods))) := by
  simp [MultiMethod.add, SILENT, WARN, FAIL, hc]

/-- C7 amended witness: registering `(int_,)` over existing `(number,)`
under `WARN` keeps both and warns naming `(int_,)` and `(number,)`. -/
theorem warn_policy_preserves_both_witness :
    MultiMethod.add psub (pmm [([PTy.number], 0)] []) 1 [PTy.int_] WARN =
      ({ pmm [([PTy.number], 0)] [] with
          methods := (pmm [([PTy.number], 0)] []).methods ++ [([PTy.int_], 1)] },
        .ok (some ([PTy.int_], lastSig (pmm [([PTy.number], 0)] []).methods))) :=
  warn_policy_preserves_both psub (pmm [([PTy.number], 0)] []) 1 [PTy.int_]
    (by decide)

/-- C8: a conflict detected under a truthy policy value that is neither
`SILENT`, `WARN` nor `FAIL` refuses the registration with `ValueError` —
an error distinct from the `TypeError` raised under the `FAIL` policy —
and leaves the engine unchanged. -/
theorem invalid_policy_error (issub : Ty → Ty → Bool)
    (mm : MultiMethod Ty V Impl) (f : Impl) (types : List Ty) (o : Nat)
    (ho : o ≠ SILENT) (hw : o ≠ WARN) (hf : o ≠ FAIL)
    (hc : (mm.methods.any fun m => issubAll issub types m.1) = true) :
    MultiMethod.add issub mm f types o = (mm, .error .valueError) ∧
    (PyErr.valueError : PyErr Ty) ≠ .typeError none := by
  have hob : (o != 0) = true := by simpa [SILENT] using ho
  have h2f : (o == FAIL) = false := by simpa using hf
  have h1f : (o == WARN) = false := by simpa using hw
  exact ⟨by simp [MultiMethod.add, hob, hc, h2f, h1f],
    fun h => PyErr.noConfusion h⟩

/-- C8 witness: policy value 3 with an overlapping `(int_,)` registration. -/
theorem invalid_policy_error_witness :
    MultiMethod.add psub (pmm [([PTy.int_], 0)] []) 1 [PTy.int_] 3 =
      (pmm [([PTy.int_], 0)] [], .error .valueError) ∧
    (PyErr.valueError : PyErr PTy) ≠ .typeError none :=
  invalid_policy_error psub (pmm [([PTy.int_], 0)] []) 1 [PTy.int_] 3
    (by decide) (by decide) (by decide) (by decide)

/-! ### Helper lemmas about invocation and the cache -/

/-- Zeta-expanded unfolding of `MultiMethod.call`. -/
theorem call_eq [DecidableEq Ty] (issub : Ty → Ty → Bool) (typeOf : V → Ty)
    (superTy : Ty) (mm : MultiMethod Ty V Impl) (args : List (Arg Ty V))
    (kwargs : List (String × Arg Ty V)) :
    MultiMethod.call issub typeOf superTy mm args kwargs =
      match lookupCache mm.cache
          ((mm.get args kwargs).map (argTypeDirect typeOf superTy)) with
      | some f => .ok ((f, args, kwargs), mm)
      | none =>
        match resolve issub mm.methods
            ((mm.get args kwargs).map (argTypeDirect typeOf superTy)) with
        | some f =>
          .ok ((f, args, kwargs),
            { mm with cache :=
              ((mm.get args kwargs).map (argTypeDirect typeOf superTy), f) ::
                mm.cache })
        | none =>
          .error (.typeError
            (some ((mm.get args kwargs).map (argTypeDirect typeOf superTy)))) :=
  rfl

/-- Zeta-expanded unfolding of `MultiMethod.super`. -/
theorem super_eq [DecidableEq Ty] (issub : Ty → Ty → Bool) (typeOf : V → Ty)
    (superOf : Ty → Ty) (mm : MultiMethod Ty V Impl) (args : List (Arg Ty V))
    (kwargs : List (String × Arg Ty V)) :
    MultiMethod.super issub typeOf superOf mm args kwargs =
      match lookupCache mm.cache
          ((mm.get args kwargs).map (argTypeSuper typeOf superOf)) with
      | some f =>
        .ok ((f, args.map unwrapArg,
          kwargs.map fun p => (p.1, unwrapArg p.2)), mm)
      | none =>
        match resolve issub mm.methods
            ((mm.get args kwargs).map (argTypeSuper typeOf superOf)) with
        | some f =>
          .ok ((f, args.map unwrapArg,
            kwargs.map fun p => (p.1, unwrapArg p.2)),
            { mm with cache :=
              ((mm.get args kwargs).map (argTypeSuper typeOf superOf), f) ::
                mm.cache })
        | none => .error (.typeError none) :=
  rfl

/-- A successful invocation forwards the call arguments unchanged, preserves
the extractor and the registry, and leaves the cache holding the selected
implementation at the discriminant type tuple. -/
theorem call_ok_inv [DecidableEq Ty] (issub : Ty → Ty → Bool)
    (typeOf : V → Ty) (superTy : Ty) (mm mm' : MultiMethod Ty V Impl)
    (args fa : List (Arg Ty V)) (kwargs fk : List (String × Arg Ty V))
    (f : Impl)
    (h : MultiMethod.call issub typeOf superTy mm args kwargs =
      .ok ((f, fa, fk), mm')) :
    mm'.get = mm.get ∧ mm'.methods = mm.methods ∧ fa = args ∧ fk = kwargs ∧
    lookupCache mm'.cache
      ((mm.get args kwargs).map (argTypeDirect typeOf superTy)) = some f := by
  rw [call_eq] at h
  cases hl : lookupCache mm.cache
      ((mm.get args kwargs).map (argTypeDirect typeOf superTy)) with
  | some g =>
    rw [hl] at h
    have h2 : (Except.ok ((g, args, kwargs), mm) :
        Except (PyErr Ty) ((Impl × List (Arg Ty V) ×
          List (String × Arg Ty V)) × MultiMethod Ty V Impl)) =
        .ok ((f, fa, fk), mm') := h
    injection h2 with h3
    injection h3 with h4 h5
    injection h4 with h6 h7
    injection h7 with h8 h9
    subst h5 h6 h8 h9
    exact ⟨rfl, rfl, rfl, rfl, hl⟩
  | none =>
    rw [hl] at h
    cases hr : resolve issub mm.methods
        ((mm.get args kwargs).map (argTypeDirect typeOf superTy)) with
    | some g =>
      rw [hr] at h
      have h2 : (Except.ok ((g, args, kwargs),
          { mm with cache :=
            ((mm.get args kwargs).map (argTypeDirect typeOf superTy), g) ::
              mm.cache }) :
          Except (PyErr Ty) ((Impl × List (Arg Ty V) ×
            List (String × Arg Ty V)) × MultiMethod Ty V Impl)) =
          .ok ((f, fa, fk), mm') := h
      injection h2 with h3
      injection h3 with h4 h5
      injection h4 with h6 h7
      injection h7 with h8 h9
      subst h5 h6 h8 h9
      refine ⟨rfl, rfl, rfl, rfl, ?_⟩
      simp [lookupCache]
    | none =>
      rw [hr] at h
      exact absurd h (by simp)

/-- Raw registration never modifies the cache or the extractor. -/
theorem add_cache_get (issub : Ty → Ty → Bool) (mm : MultiMethod Ty V Impl)
    (f : Impl) (types : List Ty) (o : Nat) :
    ((MultiMethod.add issub mm f types o).1).cache = mm.cache ∧
    ((MultiMethod.add issub mm f types o).1).get = mm.get := by
  simp only [MultiMethod.add]
  split
  · exact ⟨rfl, rfl⟩
  · split
    · exact ⟨rfl, rfl⟩
    · split
      · exact ⟨rfl, rfl⟩
      · exact ⟨rfl, rfl⟩

/-- C2: raw registration leaves the cache untouched (first conjunct) while
the decorating form clears it wholesale (second conjunct); consequently,
after an invocation has cached `f` for the discriminant tuple of
`args`/`kwargs`, a raw `SILENT` registration of a matching signature `sig`
followed by the same invocation still returns the old `f` and leaves the
state unchanged (third conjunct), even though a cold resolution against the
updated registry would now select the new implementation `g` (fourth
conjunct). -/
theorem stale_cache_after_raw_add [DecidableEq Ty] (issub : Ty → Ty → Bool)
    (typeOf : V → Ty) (superTy : Ty) (mm mm' : MultiMethod Ty V Impl)
    (args : List (Arg Ty V)) (kwargs : List (String × Arg Ty V))
    (f g : Impl) (sig : List Ty) (o : Nat)
    (hcall : MultiMethod.call issub typeOf superTy mm args kwargs =
      .ok ((f, args, kwargs), mm'))
    (hmatch : issubAll issub
      ((mm.get args kwargs).map (argTypeDirect typeOf superTy)) sig = true) :
    ((MultiMethod.add issub mm g sig o).1).cache = mm.cache ∧
    ((MultiMethod.add_dec issub mm g sig o).1).cache = [] ∧
    MultiMethod.call issub typeOf superTy
        ((MultiMethod.add issub mm' g sig SILENT).1) args kwargs =
      .ok ((f, args, kwargs), (MultiMethod.add issub mm' g sig SILENT).1) ∧
    resolve issub ((MultiMethod.add issub mm' g sig SILENT).1).methods
        ((mm.get args kwargs).map (argTypeDirect typeOf superTy)) = some g := by
  obtain ⟨hget, hmeth, -, -, hlook⟩ :=
    call_ok_inv issub typeOf superTy mm mm' args args kwargs kwargs f hcall
  have hmm2 : (MultiMethod.add issub mm' g sig SILENT).1 =
      { mm' with methods := mm'.methods ++ [(sig, g)] } := rfl
  refine ⟨(add_cache_get issub mm g sig o).1,
    (add_cache_get issub { mm with cache := [] } g sig o).1, ?_, ?_⟩
  · rw [hmm2, call_eq]
    have hg : ({ mm' with methods := mm'.methods ++ [(sig, g)] } :
        MultiMethod Ty V Impl).get = mm.get := hget
    rw [hg]
    have hc : ({ mm' with methods := mm'.methods ++ [(sig, g)] } :
        MultiMethod Ty V Impl).cache = mm'.cache := rfl
    rw [hc, hlook]
  · rw [hmm2]
    have hm : ({ mm' with methods := mm'.methods ++ [(sig, g)] } :
        MultiMethod Ty V Impl).methods = mm.methods ++ [(sig, g)] := by
      rw [← hmeth]
    rw [hm]
    exact resolve_append_match issub mm.methods
      ((mm.get args kwargs).map (argTypeDirect typeOf superTy)) sig g hmatch

/-- C2 witness: engine with one `(animal,)` handler; invoking on a dog
caches it; a raw registration of `(dog,)` leaves the stale cache in place
and the repeated invocation still returns the old handler. -/
theorem stale_cache_after_raw_add_witness :
    ((MultiMethod.add psub (pmm [([PTy.animal], 10)] []) 20 [PTy.dog] 0).1).cache
        = (pmm [([PTy.animal], 10)] []).cache ∧
    ((MultiMethod.add_dec psub (pmm [([PTy.animal], 10)] []) 20
        [PTy.dog] 0).1).cache = [] ∧
    MultiMethod.call psub PVal.typeOf PTy.sup_
        ((MultiMethod.add psub (pmm [([PTy.animal], 10)] [([PTy.dog], 10)])
          20 [PTy.dog] SILENT).1)
        [Arg.plain ⟨PTy.dog, 7⟩] [] =
      .ok ((10, [Arg.plain ⟨PTy.dog, 7⟩], []),
        (MultiMethod.add psub (pmm [([PTy.animal], 10)] [([PTy.dog], 10)])
          20 [PTy.dog] SILENT).1) ∧
    resolve psub
        ((MultiMethod.add psub (pmm [([PTy.animal], 10)] [([PTy.dog], 10)])
          20 [PTy.dog] SILENT).1).methods
        (((pmm [([PTy.animal], 10)] []).get [Arg.plain ⟨PTy.dog, 7⟩] []).map
          (argTypeDirect PVal.typeOf PTy.sup_)) = some 20 :=
  stale_cache_after_raw_add psub PVal.typeOf PTy.sup_
    (pmm [([PTy.animal], 10)] []) (pmm [([PTy.animal], 10)] [([PTy.dog], 10)])
    [Arg.plain ⟨PTy.dog, 7⟩] [] 10 20 [PTy.dog] 0 (by rfl) (by rfl)

/-- C5: when every cache entry agrees with resolution against the current
registry (the pure-memoisation invariant, which holds for a cold cache and
is maintained by invocations between registry changes), invocation returns
the same result — selected implementation, forwarded arguments, or error —
whether the cache is warm or cleared wholesale (first conjunct); and a
repeated invocation after a successful one returns the identical result and
leaves the state fixed, so the cached fast path and the linear registry scan
are observably equivalent (second conjunct, which needs no invariant). -/
theorem cache_transparency [DecidableEq Ty] (issub : Ty → Ty → Bool)
    (typeOf : V → Ty) (superTy : Ty) (mm mm' : MultiMethod Ty V Impl)
    (args : List (Arg Ty V)) (kwargs : List (String × Arg Ty V))
    (r : Impl × List (Arg Ty V) × List (String × Arg Ty V))
    (hcons : cacheConsistent issub mm)
    (hrep : MultiMethod.call issub typeOf superTy mm args kwargs =
      .ok (r, mm')) :
    (MultiMethod.call issub typeOf superTy mm args kwargs).map Prod.fst =
      (MultiMethod.call issub typeOf superTy { mm with cache := [] }
        args kwargs).map Prod.fst ∧
    MultiMethod.call issub typeOf superTy mm' args kwargs = .ok (r, mm') := by
  constructor
  · rw [call_eq issub typeOf superTy mm args kwargs,
      call_eq issub typeOf superTy { mm with cache := [] } args kwargs]
    have hgc : ({ mm with cache := [] } : MultiMethod Ty V Impl).get =
      mm.get := rfl
    have hmc : ({ mm with cache := [] } : MultiMethod Ty V Impl).methods =
      mm.methods := rfl
    have hcc : ({ mm with cache := [] } : MultiMethod Ty V Impl).cache =
      ([] : List (List Ty × Impl)) := rfl
    rw [hgc, hmc, hcc]
    cases hl : lookupCache mm.cache
        ((mm.get args kwargs).map (argTypeDirect typeOf superTy)) with
    | some f =>
      rw [hcons ((mm.get args kwargs).map (argTypeDirect typeOf superTy)) f hl]
      rfl
    | none =>
      cases hr : resolve issub mm.methods
          ((mm.get args kwargs).map (argTypeDirect typeOf superTy)) with
      | some f => rfl
      | none => rfl
  · obtain ⟨f, fa, fk⟩ := r
    obtain ⟨hget, hmeth, hfa, hfk, hlook⟩ :=
      call_ok_inv issub typeOf superTy mm mm' args fa kwargs fk f hrep
    subst hfa hfk
    rw [call_eq, hget, hlook]

/-- C5 witness: a warm consistent cache (`(dog,) ↦ 10` with `(animal,)`
registered) gives the same result as the cleared cache, and the repeated
invocation is stable. -/
theorem cache_transparency_witness :
    (MultiMethod.call psub PVal.typeOf PTy.sup_
        (pmm [([PTy.animal], 10)] [([PTy.dog], 10)])
        [Arg.plain ⟨PTy.dog, 7⟩] []).map Prod.fst =
      (MultiMethod.call psub PVal.typeOf PTy.sup_
        { pmm [([PTy.animal], 10)] [([PTy.dog], 10)] with cache := [] }
        [Arg.plain ⟨PTy.dog, 7⟩] []).map Prod.fst ∧
    MultiMethod.call psub PVal.typeOf PTy.sup_
        (pmm [([PTy.animal], 10)] [([PTy.dog], 10)])
        [Arg.plain ⟨PTy.dog, 7⟩] [] =
      .ok ((10, [Arg.plain ⟨PTy.dog, 7⟩], []),
        pmm [([PTy.animal], 10)] [([PTy.dog], 10)]) :=
  cache_transparency psub PVal.typeOf PTy.sup_
    (pmm [([PTy.animal], 10)] [([PTy.dog], 10)])
    (pmm [([PTy.animal], 10)] [([PTy.dog], 10)])
    [Arg.plain ⟨PTy.dog, 7⟩] [] (10, [Arg.plain ⟨PTy.dog, 7⟩], [])
    (by
      intro types f h
      by_cases ht : ([PTy.dog] : List PTy) = types
      · subst ht
        have h2 : (some 10 : Option Nat) = some f := h
        rw [← Option.some.inj h2]
        rfl
      · have h2 : lookupCache
            ((pmm [([PTy.animal], 10)] [([PTy.dog], 10)]).cache) types =
            none := by
          simp [pmm, lookupCache, ht]
        rw [h2] at h
        cases h)
    (by rfl)

/-- C3: a successful cooperative invocation forwards every positional and
keyword argument with delegation markers unwrapped to their wrapped values
(first two conjuncts), and — starting from a cold cache — the selected
implementation is exactly the one resolution picks for the discriminant
tuple in which every marker contributes the immediate supertype of its
recorded class context and every plain argument its own runtime type (third
conjunct).  Hence, with registrations for `(animal,)` then `(dog,)`, direct
invocation on a dog selects the `(dog,)` handler, while cooperative
invocation with a marker wrapping that dog selects the `(animal,)` handler
and passes it the unwrapped dog, also through keyword position (last three
conjuncts). -/
theorem delegation_supertype [DecidableEq Ty] (issub : Ty → Ty → Bool)
    (typeOf : V → Ty) (superOf : Ty → Ty) (mm mm' : MultiMethod Ty V Impl)
    (args fa : List (Arg Ty V)) (kwargs fk : List (String × Arg Ty V))
    (f : Impl)
    (hok : MultiMethod.super issub typeOf superOf mm args kwargs =
      .ok ((f, fa, fk), mm'))
    (hcold : mm.cache = []) :
    fa = args.map unwrapArg ∧
    fk = kwargs.map (fun p => (p.1, unwrapArg p.2)) ∧
    resolve issub mm.methods
      ((mm.get args kwargs).map (argTypeSuper typeOf superOf)) = some f ∧
    MultiMethod.call psub PVal.typeOf PTy.sup_
        (pmm [([PTy.animal], 0), ([PTy.dog], 1)] [])
        [Arg.plain ⟨PTy.dog, 7⟩] [] =
      .ok ((1, [Arg.plain ⟨PTy.dog, 7⟩], []),
        pmm [([PTy.animal], 0), ([PTy.dog], 1)] [([PTy.dog], 1)]) ∧
    MultiMethod.super psub PVal.typeOf psuperOf
        (pmm [([PTy.animal], 0), ([PTy.dog], 1)] [])
        [Arg.sup PTy.dog ⟨PTy.dog, 7⟩] [] =
      .ok ((0, [Arg.plain ⟨PTy.dog, 7⟩], []),
        pmm [([PTy.animal], 0), ([PTy.dog], 1)] [([PTy.animal], 0)]) ∧
    MultiMethod.super psub PVal.typeOf psuperOf
        (pmm [([PTy.animal], 0), ([PTy.dog], 1)] [])
        [Arg.sup PTy.dog ⟨PTy.dog, 7⟩] [("x", Arg.sup PTy.animal ⟨PTy.dog, 3⟩)] =
      .ok ((0, [Arg.plain ⟨PTy.dog, 7⟩], [("x", Arg.plain ⟨PTy.dog, 3⟩)]),
        pmm [([PTy.animal], 0), ([PTy.dog], 1)] [([PTy.animal], 0)]) := by
  rw [super_eq] at hok
  have hl : lookupCache mm.cache
      ((mm.get args kwargs).map (argTypeSuper typeOf superOf)) = none := by
    rw [hcold]
    rfl
  rw [hl] at hok
  cases hr : resolve issub mm.methods
      ((mm.get args kwargs).map (argTypeSuper typeOf superOf)) with
  | some g =>
    rw [hr] at hok
    have h2 : (Except.ok ((g, args.map unwrapArg,
        kwargs.map fun p => (p.1, unwrapArg p.2)),
        { mm with cache :=
          ((mm.get args kwargs).map (argTypeSuper typeOf superOf), g) ::
            mm.cache }) :
        Except (PyErr Ty) ((Impl × List (Arg Ty V) ×
          List (String × Arg Ty V)) × MultiMethod Ty V Impl)) =
        .ok ((f, fa, fk), mm') := hok
    injection h2 with h3
    injection h3 with h4 h5
    injection h4 with h6 h7
    injection h7 with h8 h9
    subst h6 h8 h9
    exact ⟨rfl, rfl, rfl, by rfl, by rfl, by rfl⟩
  | none =>
    rw [hr] at hok
    exact absurd hok (by simp)

/-- C3 witness: cooperative invocation of the `(animal,)`/`(dog,)` engine on
a marker `super(dog, d)` with a marker keyword argument: the unwrapping and
substituted-supertype resolution hold at this concrete input. -/
theorem delegation_supertype_witness :
    ([Arg.plain (⟨PTy.dog, 7⟩ : PVal)] =
      [Arg.sup PTy.dog (⟨PTy.dog, 7⟩ : PVal)].map unwrapArg) ∧
    ([("x", Arg.plain (⟨PTy.dog, 3⟩ : PVal))] =
      [("x", Arg.sup PTy.animal (⟨PTy.dog, 3⟩ : PVal))].map
        fun p => (p.1, unwrapArg p.2)) ∧
    resolve psub (pmm [([PTy.animal], 0), ([PTy.dog], 1)] []).methods
      (((pmm [([PTy.animal], 0), ([PTy.dog], 1)] []).get
        [Arg.sup PTy.dog ⟨PTy.dog, 7⟩]
        [("x", Arg.sup PTy.animal ⟨PTy.dog, 3⟩)]).map
          (argTypeSuper PVal.typeOf psuperOf)) = some 0 ∧
    MultiMethod.call psub PVal.typeOf PTy.sup_
        (pmm [([PTy.animal], 0), ([PTy.dog], 1)] [])
        [Arg.plain ⟨PTy.dog, 7⟩] [] =
      .ok ((1, [Arg.plain ⟨PTy.dog, 7⟩], []),
        pmm [([PTy.animal], 0), ([PTy.dog], 1)] [([PTy.dog], 1)]) ∧
    MultiMethod.super psub PVal.typeOf psuperOf
        (pmm [([PTy.animal], 0), ([PTy.dog], 1)] [])
        [Arg.sup PTy.dog ⟨PTy.dog, 7⟩] [] =
      .ok ((0, [Arg.plain ⟨PTy.dog, 7⟩], []),
        pmm [([PTy.animal], 0), ([PTy.dog], 1)] [([PTy.animal], 0)]) ∧
    MultiMethod.super psub PVal.typeOf psuperOf
        (pmm [([PTy.animal], 0), ([PTy.dog], 1)] [])
        [Arg.sup PTy.dog ⟨PTy.dog, 7⟩]
        [("x", Arg.sup PTy.animal ⟨PTy.dog, 3⟩)] =
      .ok ((0, [Arg.plain ⟨PTy.dog, 7⟩], [("x", Arg.plain ⟨PTy.dog, 3⟩)]),
        pmm [([PTy.animal], 0), ([PTy.dog], 1)] [([PTy.animal], 0)]) :=
  delegation_supertype psub PVal.typeOf psuperOf
    (pmm [([PTy.animal], 0), ([PTy.dog], 1)] [])
    (pmm [([PTy.animal], 0), ([PTy.dog], 1)] [([PTy.animal], 0)])
    [Arg.sup PTy.dog ⟨PTy.dog, 7⟩] [Arg.plain ⟨PTy.dog, 7⟩]
    [("x", Arg.sup PTy.animal ⟨PTy.dog, 3⟩)]
    [("x", Arg.plain ⟨PTy.dog, 3⟩)] 0 (by rfl) (by rfl)

/-- C9 counterexample: the cooperative entry point, on an unmatched
discriminant tuple `(str_,)`, raises a `TypeError` with no payload — the
error does not carry the discriminant type tuple, contradicting the claim
that every entry point's no-match error carries it (the payload differs
from the one the common entry point attaches for the same tuple). -/
theorem no_match_payload_counterexample :
    MultiMethod.super psub PVal.typeOf psuperOf (pmm [([PTy.dog], 0)] [])
        [Arg.plain ⟨PTy.str_, 5⟩] [] = .error (.typeError none) ∧
    ((pmm [([PTy.dog], 0)] []).get [Arg.plain ⟨PTy.str_, 5⟩] []).map
        (argTypeSuper PVal.typeOf psuperOf) = [PTy.str_] ∧
    (PyErr.typeError (none : Option (List PTy)) ≠
      PyErr.typeError (some [PTy.str_])) :=
  ⟨rfl, rfl, by decide⟩

/-- C9 amended: an invocation whose discriminant type tuple matches no
registered signature raises `TypeError` and never returns a default result,
at both entry points (given a cold cache); the common entry point's error
carries the discriminant type tuple, while the cooperative entry point's
error carries no tuple. -/
theorem no_match_raises [DecidableEq Ty] (issub : Ty → Ty → Bool)
    (typeOf : V → Ty) (superTy : Ty) (superOf : Ty → Ty)
    (mm : MultiMethod Ty V Impl) (args : List (Arg Ty V))
    (kwargs : List (String × Arg Ty V))
    (hcold : mm.cache = [])
    (hr1 : resolve issub mm.methods
      ((mm.get args kwargs).map (argTypeDirect typeOf superTy)) = none)
    (hr2 : resolve issub mm.methods
      ((mm.get args kwargs).map (argTypeSuper typeOf superOf)) = none) :
    MultiMethod.call issub typeOf superTy mm args kwargs =
      .error (.typeError
        (some ((mm.get args kwargs).map (argTypeDirect typeOf superTy)))) ∧
    MultiMethod.super issub typeOf superOf mm args kwargs =
      .error (.typeError none) := by
  constructor
  · rw [call_eq, hcold]
    have hl : lookupCache ([] : List (List Ty × Impl))
        ((mm.get args kwargs).map (argTypeDirect typeOf superTy)) = none := rfl
    rw [hl, hr1]
  · rw [super_eq, hcold]
    have hl : lookupCache ([] : List (List Ty × Impl))
        ((mm.get args kwargs).map (argTypeSuper typeOf superOf)) = none := rfl
    rw [hl, hr2]

/-- C9 amended witness: a `(dog,)`-only engine invoked on a string raises at
both entry points, with the tuple attached only by the common one. -/
theorem no_match_raises_witness :
    MultiMethod.call psub PVal.typeOf PTy.sup_ (pmm [([PTy.dog], 0)] [])
        [Arg.plain ⟨PTy.str_, 5⟩] [] =
      .error (.typeError
        (some (((pmm [([PTy.dog], 0)] []).get [Arg.plain ⟨PTy.str_, 5⟩] []).map
          (argTypeDirect PVal.typeOf PTy.sup_)))) ∧
    MultiMethod.super psub PVal.typeOf psuperOf (pmm [([PTy.dog], 0)] [])
        [Arg.plain ⟨PTy.str_, 5⟩] [] = .error (.typeError none) :=
  no_match_raises psub PVal.typeOf PTy.sup_ psuperOf (pmm [([PTy.dog], 0)] [])
    [Arg.plain ⟨PTy.str_, 5⟩] [] (by rfl) (by rfl) (by rfl)

end Multimethod
